import Mathlib

/-!
# screen-scout — verification of the crawl controller

Shallow embedding of `src/screenshot.js` (the `followExternal`-aware
version): the recursive `takeScreenshots` traversal, its `findLinks`
in-page link filter, the visited-set bookkeeping, and the per-task
resolution parsing (`resolution.split('x').map(parseInt)` feeding
`page.setViewport`).

Modelling choices:
* The rendering engine is abstracted as `Web : String → Option (List String)`:
  `web url = some hrefs` means `page.goto(url)` succeeds and the page's
  anchors carry the (browser-normalized, absolute) `href` strings `hrefs`,
  in DOM order; `web url = none` means navigation/screenshot throws.
  Browser launch and file persistence are modelled as always succeeding;
  file naming and I/O are outside the core per the design scope.
* JS `Set` is an insertion-ordered duplicate-free list (`setAdd`).
* The unbounded recursion of the source is embedded with a fuel
  parameter; `crawlF_fuel_ge` proves the result is independent of any
  sufficiently large fuel, which is exactly the termination argument of
  the source (depth strictly increases towards the bound on every
  recursive call).
* `St` carries, besides the `visited` set of the source, ghost event
  logs: `tasks` (url and depth of every claim that passed the
  cap/depth guard), `renders` (successful captures, in order),
  `failures` (tasks whose try-body threw), `filterCalls` (pages on
  which `findLinks` was invoked, with their depth) and `accepted`
  (each (parent, link) pair surviving the link filter). The logs only
  record what the source computes; they do not influence control flow.
-/

namespace ScreenScout

/-- Test that `p` is an initial segment of `s` (character lists):
the semantics of JS `String.prototype.startsWith`. -/
def beginsWithChars : List Char → List Char → Bool
  | _, [] => true
  | [], _ :: _ => false
  | a :: as, b :: bs => a == b && beginsWithChars as bs

/-- JS `s.startsWith(p)`. -/
def jsStartsWith (s p : String) : Bool :=
  beginsWithChars s.data p.data

/-- Accumulator for `splitChar`. -/
def splitCharAux (sep : Char) : List Char → List Char → List (List Char)
  | [], acc => [acc.reverse]
  | c :: cs, acc =>
    if c == sep then acc.reverse :: splitCharAux sep cs []
    else splitCharAux sep cs (c :: acc)

/-- JS `s.split(sep)` for a one-character separator. -/
def splitChar (sep : Char) (cs : List Char) : List (List Char) :=
  splitCharAux sep cs []

/-- JS `new URL(u).origin` for an absolute http(s) URL in browser-normalized
form: the `scheme://host[:port]` part, i.e. everything before the first
`/` that follows the `//` authority marker. On strings that do not have
the `scheme://…` shape the model returns the input unchanged; in the
crawl this function is only applied to URLs that the browser navigated
successfully. -/
def origin (u : String) : String :=
  match splitChar '/' u.data with
  | scheme :: _ :: host :: _ => String.mk (scheme ++ '/' :: '/' :: host)
  | _ => u

/-- Longest leading run of decimal digits. -/
def takeDigits : List Char → List Char
  | [] => []
  | c :: cs => if c.isDigit then c :: takeDigits cs else []

/-- Decimal value of a digit list (most significant first). -/
def digitsToNat : List Char → Nat → Nat
  | [], acc => acc
  | c :: cs, acc => digitsToNat cs (acc * 10 + (c.toNat - 48))

/-- JS `parseInt(s, 10)`: skip leading spaces, optional sign, then the
leading digit run; `none` models the `NaN` result when no digit is
found. Trailing non-digit characters are ignored, as in JS. -/
def jsParseInt (cs0 : List Char) : Option Int :=
  let cs := cs0.dropWhile (fun c => c == ' ')
  match cs with
  | '-' :: rest =>
    match takeDigits rest with
    | [] => none
    | ds => some (-(digitsToNat ds 0 : Int))
  | '+' :: rest =>
    match takeDigits rest with
    | [] => none
    | ds => some (digitsToNat ds 0)
  | _ =>
    match takeDigits cs with
    | [] => none
    | ds => some (digitsToNat ds 0)

/-- Viewport parsing: `const [width, height] = resolution.split('x').map(d => parseInt(d, 10))`
followed by `page.setViewport({width, height})`: the viewport call
succeeds exactly when both destructured entries exist and are numbers
(`setViewport` throws on `NaN`/`undefined` dimensions). -/
def parseViewport (resolution : String) : Option (Int × Int) :=
  match (splitChar 'x' resolution.data).map jsParseInt with
  | some w :: some h :: _ => some (w, h)
  | _ => none

/-- JS `Set.prototype.add` on an insertion-ordered duplicate-free list. -/
def setAdd (l : List String) (x : String) : List String :=
  if x ∈ l then l else l ++ [x]

/-- The in-page filter of `findLinks(page, base, followExternal)`:
keep `href`s that start with `"http"`, drop external ones (those not
starting with the base string) unless `followExternal`, and collect
into a `Set` (deduplicated, insertion order). The input `hrefs` are the
`link.href` strings of the page's anchors in DOM order. -/
def findLinks (hrefs : List String) (base : String) (followExternal : Bool) : List String :=
  hrefs.foldl
    (fun uniqueLinks href =>
      if jsStartsWith href "http" then
        let isExternal := !(jsStartsWith href base)
        if followExternal || !isExternal then setAdd uniqueLinks href else uniqueLinks
      else uniqueLinks)
    []

/-- The crawl configuration (immutable for the run). Output directory
and file type only affect persistence, which is outside the core. -/
structure Config where
  resolution : String
  depth : Nat
  maxPages : Nat
  followExternal : Bool

/-- The rendering collaborator: `some hrefs` = navigation and capture
succeed and the page's anchors have these `href`s; `none` = the
navigation or capture throws for this URL. -/
abbrev Web := String → Option (List String)

/-- Crawl state: the `visited` set of the source plus ghost event logs
(see the module docstring). -/
structure St where
  visited : List String
  renders : List String
  failures : List String
  tasks : List (String × Nat)
  filterCalls : List (String × Nat)
  accepted : List (String × String)

/-- The state at the start of a run (`visited = new Set()`, no events). -/
def initSt : St := ⟨[], [], [], [], [], []⟩

/-- Fuel-indexed embedding of `takeScreenshots(targetUrl, …, visited,
currentDepth)`. Mirrors the source statement by statement:
the cap/depth guard, `visited.add(targetUrl)`, viewport parsing,
navigation+capture (`web`), and — when `currentDepth < depth` —
`findLinks` with `base = new URL(targetUrl).origin` and the loop
`for (const link of links) if (!visited.has(link)) recurse(link, depth+1)`.
The fuel only bounds the recursion depth of the embedding; by
`crawlF_fuel_ge` every fuel at least `depth + 1 - currentDepth` yields
the same result, so no behaviour of the source is cut off. -/
def crawlF (cfg : Config) (web : Web) : Nat → String → St → Nat → St
  | 0, _, s, _ => s
  | fuel + 1, targetUrl, s, currentDepth =>
    if cfg.maxPages ≤ s.visited.length ∨ cfg.depth < currentDepth then s
    else
      let s1 : St := { s with visited := setAdd s.visited targetUrl,
                              tasks := s.tasks ++ [(targetUrl, currentDepth)] }
      match parseViewport cfg.resolution with
      | none => { s1 with failures := s1.failures ++ [targetUrl] }
      | some _ =>
        match web targetUrl with
        | none => { s1 with failures := s1.failures ++ [targetUrl] }
        | some hrefs =>
          let s2 : St := { s1 with renders := s1.renders ++ [targetUrl] }
          if currentDepth < cfg.depth then
            let base := origin targetUrl
            let links := findLinks hrefs base cfg.followExternal
            let s3 : St := { s2 with
              filterCalls := s2.filterCalls ++ [(targetUrl, currentDepth)],
              accepted := s2.accepted ++ links.map (fun l => (targetUrl, l)) }
            links.foldl
              (fun t link =>
                if link ∈ t.visited then t
                else crawlF cfg web fuel link t (currentDepth + 1))
              s3
          else s2

/-- One whole run: the source's entry call `takeScreenshots(argv.url,
…)` with `visited = new Set()` and `currentDepth = 1`. Fuel
`cfg.depth + 1` is sufficient (`crawlF_fuel_ge`). -/
def takeScreenshots (cfg : Config) (web : Web) (targetUrl : String) : St :=
  crawlF cfg web (cfg.depth + 1) targetUrl initSt 1

/-! ## Generic helper lemmas -/

/-- A property preserved by every step of a fold holds of the fold. -/
theorem foldl_pres {σ α : Type} {P : σ → Prop} (f : σ → α → σ)
    (h : ∀ t a, P t → P (f t a)) :
    ∀ (l : List α) (s : σ), P s → P (l.foldl f s) := by
  intro l
  induction l with
  | nil => intro s hs; simpa using hs
  | cons a l ih =>
    intro s hs
    simpa using ih (f s a) (h s a hs)

/-- Folds of pointwise-equal step functions agree. -/
theorem foldl_fun_congr {σ α : Type} (f g : σ → α → σ)
    (h : ∀ t a, f t a = g t a) :
    ∀ (l : List α) (s : σ), l.foldl f s = l.foldl g s := by
  intro l
  induction l with
  | nil => intro s; rfl
  | cons a l ih =>
    intro s
    simp only [List.foldl_cons]
    rw [h]
    exact ih _

/-! ## `setAdd` lemmas -/

theorem setAdd_of_mem {l : List String} {x : String} (h : x ∈ l) :
    setAdd l x = l := by
  simp [setAdd, h]

theorem setAdd_of_not_mem {l : List String} {x : String} (h : x ∉ l) :
    setAdd l x = l ++ [x] := by
  simp [setAdd, h]

theorem mem_setAdd {l : List String} {a x : String} :
    x ∈ setAdd l a ↔ x ∈ l ∨ x = a := by
  by_cases h : a ∈ l
  · rw [setAdd_of_mem h]
    constructor
    · exact Or.inl
    · rintro (hx | rfl)
      · exact hx
      · exact h
  · rw [setAdd_of_not_mem h]
    simp

theorem setAdd_length_le {l : List String} {x : String} :
    (setAdd l x).length ≤ l.length + 1 := by
  by_cases h : x ∈ l
  · rw [setAdd_of_mem h]; omega
  · rw [setAdd_of_not_mem h]; simp

theorem mem_of_mem_setAdd_base {l : List String} {a x : String} (h : x ∈ l) :
    x ∈ setAdd l a := mem_setAdd.mpr (Or.inl h)

theorem self_mem_setAdd {l : List String} {a : String} : a ∈ setAdd l a :=
  mem_setAdd.mpr (Or.inr rfl)

/-! ## `findLinks` lemmas -/

/-- Every link surviving the filter starts with `"http"`, and — when
`followExternal` is false — starts with the base string passed to the
filter. This is the exact guarantee of the source's filter: a string
prefix test against `base`, not an origin comparison. -/
theorem findLinks_sub (hrefs : List String) (base : String) (fe : Bool) :
    ∀ l ∈ findLinks hrefs base fe,
      jsStartsWith l "http" = true ∧ (fe = false → jsStartsWith l base = true) := by
  unfold findLinks
  apply foldl_pres
    (P := fun acc => ∀ l ∈ acc,
      jsStartsWith l "http" = true ∧ (fe = false → jsStartsWith l base = true))
  · intro acc href hacc
    by_cases hh : jsStartsWith href "http" = true
    · simp only [hh, if_true]
      by_cases hc : (fe || !(!(jsStartsWith href base))) = true
      · simp only [hc, if_true]
        intro l hl
        rcases mem_setAdd.mp hl with hl | rfl
        · exact hacc l hl
        · refine ⟨hh, fun hfe => ?_⟩
          rw [hfe] at hc
          simpa using hc
      · simp only [hc, if_false]
        exact hacc
    · simp only [hh, if_false]
      exact hacc
  · simp

/-! ## One-step unfolding lemmas for `crawlF` -/

theorem crawlF_zero (cfg : Config) (web : Web) (url : String) (s : St) (d : Nat) :
    crawlF cfg web 0 url s d = s := rfl

/-- A task rejected by the cap/depth guard leaves the state unchanged. -/
theorem crawlF_guard (cfg : Config) (web : Web) (fuel : Nat) (url : String)
    (s : St) (d : Nat)
    (h : cfg.maxPages ≤ s.visited.length ∨ cfg.depth < d) :
    crawlF cfg web (fuel + 1) url s d = s := by
  rw [crawlF]
  rw [if_pos h]

/-- A task that passes the guard but has an unparseable resolution:
the URL is claimed first, then `setViewport` throws and the error is
caught, recording a failure. No expansion happens. -/
theorem crawlF_badRes (cfg : Config) (web : Web) (fuel : Nat) (url : String)
    (s : St) (d : Nat)
    (hg : ¬(cfg.maxPages ≤ s.visited.length ∨ cfg.depth < d))
    (hpv : parseViewport cfg.resolution = none) :
    crawlF cfg web (fuel + 1) url s d =
      { s with visited := setAdd s.visited url,
               tasks := s.tasks ++ [(url, d)],
               failures := s.failures ++ [url] } := by
  rw [crawlF]
  rw [if_neg hg, hpv]

/-- A task whose navigation/capture throws: the URL is claimed, the
error is caught, a failure is recorded, and nothing else changes. -/
theorem crawlF_renderFail (cfg : Config) (web : Web) (fuel : Nat) (url : String)
    (s : St) (d : Nat) {v : Int × Int}
    (hg : ¬(cfg.maxPages ≤ s.visited.length ∨ cfg.depth < d))
    (hpv : parseViewport cfg.resolution = some v)
    (hw : web url = none) :
    crawlF cfg web (fuel + 1) url s d =
      { s with visited := setAdd s.visited url,
               tasks := s.tasks ++ [(url, d)],
               failures := s.failures ++ [url] } := by
  rw [crawlF]
  rw [if_neg hg, hpv, hw]

/-- A successfully rendered task at the maximal depth: captured, no
expansion. -/
theorem crawlF_leaf (cfg : Config) (web : Web) (fuel : Nat) (url : String)
    (s : St) (d : Nat) {v : Int × Int} {hrefs : List String}
    (hg : ¬(cfg.maxPages ≤ s.visited.length ∨ cfg.depth < d))
    (hpv : parseViewport cfg.resolution = some v)
    (hw : web url = some hrefs)
    (hleaf : ¬ d < cfg.depth) :
    crawlF cfg web (fuel + 1) url s d =
      { s with visited := setAdd s.visited url,
               tasks := s.tasks ++ [(url, d)],
               renders := s.renders ++ [url] } := by
  rw [crawlF]
  rw [if_neg hg, hpv, hw]
  simp only [if_neg hleaf]

/-- A successfully rendered task below the maximal depth: captured,
links filtered, and each unvisited surviving link crawled at depth
`d + 1`, left to right. -/
theorem crawlF_expand (cfg : Config) (web : Web) (fuel : Nat) (url : String)
    (s : St) (d : Nat) {v : Int × Int} {hrefs : List String}
    (hg : ¬(cfg.maxPages ≤ s.visited.length ∨ cfg.depth < d))
    (hpv : parseViewport cfg.resolution = some v)
    (hw : web url = some hrefs)
    (hlt : d < cfg.depth) :
    crawlF cfg web (fuel + 1) url s d =
      (findLinks hrefs (origin url) cfg.followExternal).foldl
        (fun t link =>
          if link ∈ t.visited then t
          else crawlF cfg web fuel link t (d + 1))
        { s with visited := setAdd s.visited url,
                 tasks := s.tasks ++ [(url, d)],
                 renders := s.renders ++ [url],
                 filterCalls := s.filterCalls ++ [(url, d)],
                 accepted := s.accepted ++
                   (findLinks hrefs (origin url) cfg.followExternal).map
                     (fun l => (url, l)) } := by
  rw [crawlF]
  rw [if_neg hg, hpv, hw]
  simp only [if_pos hlt]

/-! ## The page cap -/

/-- The cap check-then-insert of the source never lets `visited` grow
past `maxPages`: from any state within the cap, any crawl step (and
all of its expansion) stays within the cap. -/
theorem crawlF_cap (cfg : Config) (web : Web) :
    ∀ (fuel : Nat) (url : String) (s : St) (d : Nat),
      s.visited.length ≤ cfg.maxPages →
      (crawlF cfg web fuel url s d).visited.length ≤ cfg.maxPages := by
  intro fuel
  induction fuel with
  | zero =>
    intro url s d hs
    simpa [crawlF_zero] using hs
  | succ fuel ih =>
    intro url s d hs
    by_cases hg : cfg.maxPages ≤ s.visited.length ∨ cfg.depth < d
    · rw [crawlF_guard cfg web fuel url s d hg]
      exact hs
    · have hcap : s.visited.length < cfg.maxPages := by
        rcases Nat.lt_or_ge s.visited.length cfg.maxPages with h | h
        · exact h
        · exact absurd (Or.inl h) hg
      have hadd : (setAdd s.visited url).length ≤ cfg.maxPages := by
        calc (setAdd s.visited url).length ≤ s.visited.length + 1 := setAdd_length_le
          _ ≤ cfg.maxPages := hcap
      rcases hpv : parseViewport cfg.resolution with _ | v
      · rw [crawlF_badRes cfg web fuel url s d hg hpv]
        exact hadd
      · rcases hw : web url with _ | hrefs
        · rw [crawlF_renderFail cfg web fuel url s d hg hpv hw]
          exact hadd
        · by_cases hlt : d < cfg.depth
          · rw [crawlF_expand cfg web fuel url s d hg hpv hw hlt]
            apply foldl_pres (P := fun t : St => t.visited.length ≤ cfg.maxPages)
            · intro t link ht
              by_cases hmem : link ∈ t.visited
              · simpa [hmem] using ht
              · simpa [hmem] using ih link t (d + 1) ht
            · exact hadd
          · rw [crawlF_leaf cfg web fuel url s d hg hpv hw hlt]
            exact hadd

/-! ## The run invariant -/

/-- Invariant tying the visited set to the ghost event logs. `vt`:
claims and visited entries coincide, in order; `vnd`: no URL is
claimed twice; `vcap`: the page cap; `rsub`/`fsub`: every render and
every failure is a claimed URL; `rnd`: no URL is rendered twice;
`rfdis`: no URL both renders and fails; `tdep`: every claimed task has
depth between 1 and the depth bound; `fcdep`: link filtering only
happens strictly below the depth bound; `accOk`: with
`followExternal = false` every accepted link starts with `"http"` and
with its parent page's origin string. -/
structure Inv (cfg : Config) (s : St) : Prop where
  vt : s.visited = s.tasks.map Prod.fst
  vnd : s.visited.Nodup
  vcap : s.visited.length ≤ cfg.maxPages
  rsub : ∀ u ∈ s.renders, u ∈ s.visited
  fsub : ∀ u ∈ s.failures, u ∈ s.visited
  rnd : s.renders.Nodup
  rfdis : ∀ u ∈ s.renders, u ∉ s.failures
  tdep : ∀ td ∈ s.tasks, 1 ≤ td.2 ∧ td.2 ≤ cfg.depth
  fcdep : ∀ td ∈ s.filterCalls, td.2 < cfg.depth
  accOk : cfg.followExternal = false → ∀ pc ∈ s.accepted,
    jsStartsWith pc.2 "http" = true ∧ jsStartsWith pc.2 (origin pc.1) = true

/-- The initial state satisfies the invariant. -/
theorem Inv_init (cfg : Config) : Inv cfg initSt := by
  constructor <;> simp [initSt]

/-- The invariant is preserved by any crawl step whose URL has not yet
been claimed (which is how every call happens in a run: the top-level
seed meets an empty set, and the link loop tests `!visited.has(link)`
before recursing). -/
theorem crawlF_inv (cfg : Config) (web : Web) :
    ∀ (fuel : Nat) (url : String) (s : St) (d : Nat),
      Inv cfg s → url ∉ s.visited → 1 ≤ d →
      Inv cfg (crawlF cfg web fuel url s d) := by
  intro fuel
  induction fuel with
  | zero =>
    intro url s d hs _ _
    simpa [crawlF_zero] using hs
  | succ fuel ih =>
    intro url s d hs hurl hd1
    by_cases hg : cfg.maxPages ≤ s.visited.length ∨ cfg.depth < d
    · rw [crawlF_guard cfg web fuel url s d hg]
      exact hs
    · have hcap : s.visited.length < cfg.maxPages := by
        rcases Nat.lt_or_ge s.visited.length cfg.maxPages with h | h
        · exact h
        · exact absurd (Or.inl h) hg
      have hdep : d ≤ cfg.depth := by
        rcases Nat.lt_or_ge cfg.depth d with h | h
        · exact absurd (Or.inr h) hg
        · exact h
      have hvadd : setAdd s.visited url = s.visited ++ [url] :=
        setAdd_of_not_mem hurl
      -- facts about the claimed state shared by all branches
      have hvt' : setAdd s.visited url = (s.tasks ++ [(url, d)]).map Prod.fst := by
        rw [hvadd, hs.vt]; simp
      have hvnd' : (setAdd s.visited url).Nodup := by
        rw [hvadd]
        simpa [List.nodup_append] using ⟨hs.vnd, hurl⟩
      have hvcap' : (setAdd s.visited url).length ≤ cfg.maxPages := by
        calc (setAdd s.visited url).length ≤ s.visited.length + 1 := setAdd_length_le
          _ ≤ cfg.maxPages := hcap
      have hrsub' : ∀ u ∈ s.renders, u ∈ setAdd s.visited url :=
        fun u hu => mem_of_mem_setAdd_base (hs.rsub u hu)
      have hfsub' : ∀ u ∈ s.failures, u ∈ setAdd s.visited url :=
        fun u hu => mem_of_mem_setAdd_base (hs.fsub u hu)
      have hur : url ∉ s.renders := fun h => hurl (hs.rsub url h)
      have huf : url ∉ s.failures := fun h => hurl (hs.fsub url h)
      have htdep' : ∀ td ∈ s.tasks ++ [(url, d)], 1 ≤ td.2 ∧ td.2 ≤ cfg.depth := by
        intro td htd
        rcases List.mem_append.mp htd with h | h
        · exact hs.tdep td h
        · simp at h
          subst h
          exact ⟨hd1, hdep⟩
      have hfail : Inv cfg { s with visited := setAdd s.visited url,
                                    tasks := s.tasks ++ [(url, d)],
                                    failures := s.failures ++ [url] } := by
        refine ⟨hvt', hvnd', hvcap', hrsub', ?_, hs.rnd, ?_, htdep', hs.fcdep, hs.accOk⟩
        · intro u hu
          rcases List.mem_append.mp hu with h | h
          · exact hfsub' u h
          · simp at h
            subst h
            exact self_mem_setAdd
        · intro u hu hmem
          rcases List.mem_append.mp hmem with h | h
          · exact hs.rfdis u hu h
          · simp at h
            subst h
            exact hur hu
      rcases hpv : parseViewport cfg.resolution with _ | v
      · rw [crawlF_badRes cfg web fuel url s d hg hpv]
        exact hfail
      · rcases hw : web url with _ | hrefs
        · rw [crawlF_renderFail cfg web fuel url s d hg hpv hw]
          exact hfail
        · have hrnd' : (s.renders ++ [url]).Nodup := by
            simpa [List.nodup_append] using ⟨hs.rnd, hur⟩
          have hrsub2 : ∀ u ∈ s.renders ++ [url], u ∈ setAdd s.visited url := by
            intro u hu
            rcases List.mem_append.mp hu with h | h
            · exact hrsub' u h
            · simp at h
              subst h
              exact self_mem_setAdd
          have hrfdis' : ∀ u ∈ s.renders ++ [url], u ∉ s.failures := by
            intro u hu
            rcases List.mem_append.mp hu with h | h
            · exact hs.rfdis u h
            · simp at h
              subst h
              exact huf
          by_cases hlt : d < cfg.depth
          · rw [crawlF_expand cfg web fuel url s d hg hpv hw hlt]
            have hstep : Inv cfg { s with
                visited := setAdd s.visited url,
                tasks := s.tasks ++ [(url, d)],
                renders := s.renders ++ [url],
                filterCalls := s.filterCalls ++ [(url, d)],
                accepted := s.accepted ++
                  (findLinks hrefs (origin url) cfg.followExternal).map
                    (fun l => (url, l)) } := by
              refine ⟨hvt', hvnd', hvcap', hrsub2, hfsub', hrnd', hrfdis', htdep', ?_, ?_⟩
              · intro td htd
                rcases List.mem_append.mp htd with h | h
                · exact hs.fcdep td h
                · simp at h
                  subst h
                  exact hlt
              · intro hfe pc hpc
                rcases List.mem_append.mp hpc with h | h
                · exact hs.accOk hfe pc h
                · rcases List.mem_map.mp h with ⟨l, hl, rfl⟩
                  have := findLinks_sub hrefs (origin url) cfg.followExternal l hl
                  rw [hfe] at this
                  exact ⟨this.1, this.2 rfl⟩
            apply foldl_pres (P := Inv cfg)
            · intro t link ht
              by_cases hmem : link ∈ t.visited
              · simpa [hmem] using ht
              · simp only [hmem, if_false]
                exact ih link t (d + 1) ht hmem (by omega)
            · exact hstep
          · rw [crawlF_leaf cfg web fuel url s d hg hpv hw hlt]
            exact ⟨hvt', hvnd', hvcap', hrsub2, hfsub', hrnd', hrfdis', htdep',
              hs.fcdep, hs.accOk⟩

/-! ## Fuel adequacy: the source recursion terminates -/

/-- Extra fuel beyond the remaining depth budget `depth + 1 - d` is
never consumed: the guard `currentDepth > depth` cuts the recursion
first, exactly as in the source. -/
theorem crawlF_succ_eq (cfg : Config) (web : Web) :
    ∀ (fuel d : Nat) (url : String) (s : St),
      cfg.depth + 1 - d ≤ fuel →
      crawlF cfg web (fuel + 1) url s d = crawlF cfg web fuel url s d := by
  intro fuel
  induction fuel with
  | zero =>
    intro d url s hb
    have hd : cfg.depth < d := by omega
    rw [crawlF_guard cfg web 0 url s d (Or.inr hd), crawlF_zero]
  | succ fuel ih =>
    intro d url s hb
    by_cases hg : cfg.maxPages ≤ s.visited.length ∨ cfg.depth < d
    · rw [crawlF_guard cfg web (fuel + 1) url s d hg,
          crawlF_guard cfg web fuel url s d hg]
    · rcases hpv : parseViewport cfg.resolution with _ | v
      · rw [crawlF_badRes cfg web (fuel + 1) url s d hg hpv,
            crawlF_badRes cfg web fuel url s d hg hpv]
      · rcases hw : web url with _ | hrefs
        · rw [crawlF_renderFail cfg web (fuel + 1) url s d hg hpv hw,
              crawlF_renderFail cfg web fuel url s d hg hpv hw]
        · by_cases hlt : d < cfg.depth
          · rw [crawlF_expand cfg web (fuel + 1) url s d hg hpv hw hlt,
                crawlF_expand cfg web fuel url s d hg hpv hw hlt]
            apply foldl_fun_congr
            intro t link
            by_cases hmem : link ∈ t.visited
            · simp [hmem]
            · simp only [hmem, if_false]
              exact ih (d + 1) link t (by omega)
          · rw [crawlF_leaf cfg web (fuel + 1) url s d hg hpv hw hlt,
                crawlF_leaf cfg web fuel url s d hg hpv hw hlt]

/-- Any fuel at least the remaining depth budget gives the same crawl
result: the embedding computes the (finite) value of the source's
unbounded recursion. -/
theorem crawlF_fuel_ge (cfg : Config) (web : Web) (fuel d : Nat)
    (url : String) (s : St)
    (hb : cfg.depth + 1 - d ≤ fuel) :
    crawlF cfg web fuel url s d = crawlF cfg web (cfg.depth + 1 - d) url s d := by
  obtain ⟨k, rfl⟩ := Nat.exists_eq_add_of_le hb
  induction k with
  | zero => rfl
  | succ k ih =>
    have : cfg.depth + 1 - d + (k + 1) = (cfg.depth + 1 - d + k) + 1 := by omega
    rw [this, crawlF_succ_eq cfg web (cfg.depth + 1 - d + k) d url s (by omega)]
    exact ih (by omega)

/-! ## Concrete scenarios -/

/-- Scenario A configuration: depth 1, max 10 pages. -/
def cfgA : Config := ⟨"1920x1080", 1, 10, false⟩

/-- Scenario B/D configuration: depth 2, max 10 pages, no external. -/
def cfgB : Config := ⟨"1920x1080", 2, 10, false⟩

/-- Scenario C configuration: like B but max 1 page. -/
def cfgC : Config := ⟨"1920x1080", 2, 1, false⟩

/-- Invalid-resolution configuration: `"bogus".split('x')` yields no
parseable dimensions. -/
def cfg8 : Config := ⟨"bogus", 2, 10, false⟩

/-- Scenario A web: the seed page carries links (which must be ignored
at depth 1). -/
def webA : Web := fun u =>
  if u = "https://a.test/" then
    some ["https://a.test/x", "https://b.test/y"]
  else some []

/-- Scenario B web: the seed page links twice to the same internal
target and once to an external one. -/
def webB : Web := fun u =>
  if u = "https://a.test/" then
    some ["https://a.test/x", "https://a.test/x", "https://b.test/y"]
  else some []

/-- Scenario D web: the first child fails to render, the sibling
succeeds. -/
def webD : Web := fun u =>
  if u = "https://a.test/" then
    some ["https://a.test/c1", "https://a.test/c2"]
  else if u = "https://a.test/c1" then none
  else some []

/-- Web for the external-link counterexample: a page of a different
origin whose URL string nevertheless extends the parent's origin. -/
def webEvil : Web := fun u =>
  if u = "https://a.test/" then some ["https://a.test.evil.com/"]
  else some []

/-- Web whose seed page links to variants of the seed URL differing
only in fragment, query, or trailing slash. -/
def webE : Web := fun u =>
  if u = "https://a.test/" then
    some ["https://a.test/#frag", "https://a.test/?q=1", "https://a.test",
          "https://a.test/"]
  else some []

/-- A web where every page renders and has no links. -/
def web8 : Web := fun _ => some []

/-! ## Claims -/

/-- C1, counterexample. The source classifies a link as external by
`!href.startsWith(base)`, a string-prefix test against the parent's
origin, not an origin comparison: with `followExternal = false` the
link `https://a.test.evil.com/` on the page `https://a.test/` passes
the filter and is claimed as a child task, although its origin
`https://a.test.evil.com` differs from the parent's `https://a.test`. -/
theorem C1_origin_cex :
    cfgB.followExternal = false ∧
    ("https://a.test/", "https://a.test.evil.com/") ∈
      (takeScreenshots cfgB webEvil "https://a.test/").accepted ∧
    ("https://a.test.evil.com/", 2) ∈
      (takeScreenshots cfgB webEvil "https://a.test/").tasks ∧
    origin "https://a.test.evil.com/" ≠ origin "https://a.test/" := by
  decide

/-- C1, amended. For every run with `followExternal = false`, every
child accepted by the link filter starts with `"http"` and has the
parent page's origin as a string prefix of its URL (rather than
origin equality: the prefix test also admits different-origin URLs
whose string extends the parent's origin). -/
theorem C1_filter_begins (cfg : Config) (web : Web) (url : String)
    (hfe : cfg.followExternal = false) :
    ∀ pc ∈ (takeScreenshots cfg web url).accepted,
      jsStartsWith pc.2 "http" = true ∧
      jsStartsWith pc.2 (origin pc.1) = true :=
  (crawlF_inv cfg web (cfg.depth + 1) url initSt 1 (Inv_init cfg)
    (by simp [initSt]) le_rfl).accOk hfe

/-- Witness for `C1_filter_begins` at scenario B. -/
theorem C1_filter_begins_w :
    cfgB.followExternal = false ∧
    ("https://a.test/", "https://a.test/x") ∈
      (takeScreenshots cfgB webB "https://a.test/").accepted ∧
    (jsStartsWith "https://a.test/x" "http" = true ∧
     jsStartsWith "https://a.test/x" (origin "https://a.test/") = true) :=
  ⟨rfl, by decide,
   C1_filter_begins cfgB webB "https://a.test/" rfl
     ("https://a.test/", "https://a.test/x") (by decide)⟩

/-- C2. The visited set never exceeds the page cap: from any state
within the cap, every crawl step stays within the cap (so every point
of every run is within the cap, the run starting from the empty set);
and in scenario C (`maxPages = 1`) only the seed is ever claimed — the
child candidate survives the filter (a claim is attempted) but the
claim is rejected by the cap. -/
theorem C2_visited_cap :
    (∀ (cfg : Config) (web : Web) (fuel : Nat) (url : String) (s : St) (d : Nat),
        s.visited.length ≤ cfg.maxPages →
        (crawlF cfg web fuel url s d).visited.length ≤ cfg.maxPages) ∧
    (takeScreenshots cfgC webB "https://a.test/").visited = ["https://a.test/"] ∧
    (takeScreenshots cfgC webB "https://a.test/").tasks = [("https://a.test/", 1)] ∧
    (takeScreenshots cfgC webB "https://a.test/").accepted =
      [("https://a.test/", "https://a.test/x")] :=
  ⟨fun cfg web fuel url s d h => crawlF_cap cfg web fuel url s d h,
   by decide, by decide, by decide⟩

/-- Witness for `C2_visited_cap` at a concrete state. -/
theorem C2_visited_cap_w :
    initSt.visited.length ≤ cfgB.maxPages ∧
    (crawlF cfgB webB 3 "https://a.test/" initSt 1).visited.length ≤ cfgB.maxPages :=
  ⟨by decide, C2_visited_cap.1 cfgB webB 3 "https://a.test/" initSt 1 (by decide)⟩

/-- C3. No URL is rendered twice in a run: the list of successful
captures of any run has no duplicates. -/
theorem C3_render_once (cfg : Config) (web : Web) (url : String) :
    (takeScreenshots cfg web url).renders.Nodup :=
  (crawlF_inv cfg web (cfg.depth + 1) url initSt 1 (Inv_init cfg)
    (by simp [initSt]) le_rfl).rnd

/-- C4. Every task claimed in a run has depth between 1 and the depth
bound; link filtering (child spawning) only ever happens strictly below
the depth bound, so depth-`D` tasks never spawn children; and with
`depth = 1` (and a positive page cap) exactly the seed is processed
and the link filter is never invoked, whatever the web contains. -/
theorem C4_depth_bounds (cfg : Config) (web : Web) (url : String) :
    (∀ td ∈ (takeScreenshots cfg web url).tasks, 1 ≤ td.2 ∧ td.2 ≤ cfg.depth) ∧
    (∀ td ∈ (takeScreenshots cfg web url).filterCalls, td.2 < cfg.depth) ∧
    (cfg.depth = 1 → 1 ≤ cfg.maxPages →
      (takeScreenshots cfg web url).tasks = [(url, 1)] ∧
      (takeScreenshots cfg web url).filterCalls = []) := by
  have h := crawlF_inv cfg web (cfg.depth + 1) url initSt 1 (Inv_init cfg)
    (by simp [initSt]) le_rfl
  refine ⟨h.tdep, h.fcdep, ?_⟩
  intro hD hM
  have e : takeScreenshots cfg web url = crawlF cfg web (cfg.depth + 1) url initSt 1 := rfl
  have hg : ¬(cfg.maxPages ≤ initSt.visited.length ∨ cfg.depth < 1) := by
    simp only [initSt, List.length_nil]
    omega
  rcases hpv : parseViewport cfg.resolution with _ | v
  · rw [e, crawlF_badRes cfg web cfg.depth url initSt 1 hg hpv]
    simp [initSt]
  · rcases hw : web url with _ | hrefs
    · rw [e, crawlF_renderFail cfg web cfg.depth url initSt 1 hg hpv hw]
      simp [initSt]
    · rw [e, crawlF_leaf cfg web cfg.depth url initSt 1 hg hpv hw (by omega)]
      simp [initSt]

/-- Witness for `C4_depth_bounds` at scenario A. -/
theorem C4_depth_bounds_w :
    cfgA.depth = 1 ∧ 1 ≤ cfgA.maxPages ∧
    (takeScreenshots cfgA webA "https://a.test/").tasks = [("https://a.test/", 1)] ∧
    (takeScreenshots cfgA webA "https://a.test/").filterCalls = [] := by
  have h := (C4_depth_bounds cfgA webA "https://a.test/").2.2 rfl (by decide)
  exact ⟨rfl, by decide, h.1, h.2⟩

/-- C5. Every crawl run terminates: the result of the recursion is
already reached at recursion depth `cfg.depth` — any fuel at least
`cfg.depth` computes the same final state as the run, for every web
(every input graph of pages and links), because depth strictly
increases towards its bound on every recursive call and the visited
set is capped. -/
theorem C5_terminating (cfg : Config) (web : Web) (url : String) :
    ∀ fuel : Nat, cfg.depth ≤ fuel →
      crawlF cfg web fuel url initSt 1 = takeScreenshots cfg web url := by
  intro fuel hf
  have h1 := crawlF_fuel_ge cfg web fuel 1 url initSt (by omega)
  have h2 := crawlF_fuel_ge cfg web (cfg.depth + 1) 1 url initSt (by omega)
  have e : takeScreenshots cfg web url = crawlF cfg web (cfg.depth + 1) url initSt 1 := rfl
  rw [h1, e, h2]

/-- Witness for `C5_terminating` with surplus fuel. -/
theorem C5_terminating_w :
    cfgB.depth ≤ 7 ∧
    crawlF cfgB webB 7 "https://a.test/" initSt 1 =
      takeScreenshots cfgB webB "https://a.test/" :=
  ⟨by decide, C5_terminating cfgB webB "https://a.test/" 7 (by decide)⟩

/-- C6. Scenario B: seed `https://a.test/`, depth 2, max 10 pages,
`followExternal = false`, seed page links
`[https://a.test/x, https://a.test/x, https://b.test/y]` → after the
seed exactly one child task is claimed, for `https://a.test/x`: the
duplicate is collapsed by the filter's set and the external candidate
is rejected. -/
theorem C6_scenarioB :
    (takeScreenshots cfgB webB "https://a.test/").accepted =
      [("https://a.test/", "https://a.test/x")] ∧
    (takeScreenshots cfgB webB "https://a.test/").tasks =
      [("https://a.test/", 1), ("https://a.test/x", 2)] ∧
    (takeScreenshots cfgB webB "https://a.test/").visited =
      ["https://a.test/", "https://a.test/x"] := by
  decide

/-- C7. A render failure is absorbed by the per-task catch: a claimed
task whose navigation throws only records its claim and its failure —
the state the siblings continue from is otherwise untouched, so the
failure never aborts sibling or ancestor tasks. In scenario D the
depth-1 child `c1` fails and its sibling `c2` from the same parent is
still rendered. -/
theorem C7_failure_isolated :
    (∀ (cfg : Config) (web : Web) (fuel : Nat) (url : String) (s : St) (d : Nat)
        (v : Int × Int),
        parseViewport cfg.resolution = some v →
        web url = none →
        s.visited.length < cfg.maxPages → d ≤ cfg.depth →
        crawlF cfg web (fuel + 1) url s d =
          { s with visited := setAdd s.visited url,
                   tasks := s.tasks ++ [(url, d)],
                   failures := s.failures ++ [url] }) ∧
    (takeScreenshots cfgB webD "https://a.test/").renders =
      ["https://a.test/", "https://a.test/c2"] ∧
    (takeScreenshots cfgB webD "https://a.test/").failures = ["https://a.test/c1"] := by
  refine ⟨?_, by decide, by decide⟩
  intro cfg web fuel url s d v hpv hw hcap hdep
  exact crawlF_renderFail cfg web fuel url s d (by omega) hpv hw

/-- Witness for `C7_failure_isolated` at the failing child of
scenario D. -/
theorem C7_failure_isolated_w :
    parseViewport cfgB.resolution = some (1920, 1080) ∧
    webD "https://a.test/c1" = none ∧
    initSt.visited.length < cfgB.maxPages ∧ 2 ≤ cfgB.depth ∧
    crawlF cfgB webD 1 "https://a.test/c1" initSt 2 =
      { initSt with visited := setAdd initSt.visited "https://a.test/c1",
                    tasks := initSt.tasks ++ [("https://a.test/c1", 2)],
                    failures := initSt.failures ++ ["https://a.test/c1"] } :=
  ⟨rfl, rfl, by decide, by decide,
   C7_failure_isolated.1 cfgB webD 0 "https://a.test/c1" initSt 2 (1920, 1080)
     rfl rfl (by decide) (by decide)⟩

/-- C8, counterexample. With the invalid resolution string `"bogus"`
the run is not aborted before the seed is claimed: the seed is added to
the visited set first, then the viewport call throws and is caught by
the per-task handler, recording a failure — the run continues (and
ends) normally. -/
theorem C8_cex :
    parseViewport cfg8.resolution = none ∧
    (takeScreenshots cfg8 web8 "https://a.test/").visited = ["https://a.test/"] ∧
    (takeScreenshots cfg8 web8 "https://a.test/").failures = ["https://a.test/"] := by
  decide

/-- C8, amended. An invalid resolution string is not validated at parse
time and is not fatal: every claimed task fails at the viewport call
after being claimed, so the run renders nothing, every claimed URL is
recorded as a failure, and (with positive cap and depth) the seed — and
only the seed — is claimed before its failure. -/
theorem C8_resolution_not_fatal (cfg : Config) (web : Web) (url : String)
    (hpv : parseViewport cfg.resolution = none) :
    (takeScreenshots cfg web url).renders = [] ∧
    (takeScreenshots cfg web url).failures = (takeScreenshots cfg web url).visited ∧
    (1 ≤ cfg.maxPages → 1 ≤ cfg.depth →
      (takeScreenshots cfg web url).visited = [url]) := by
  have e : takeScreenshots cfg web url = crawlF cfg web (cfg.depth + 1) url initSt 1 := rfl
  by_cases hg : cfg.maxPages ≤ initSt.visited.length ∨ cfg.depth < 1
  · rw [e, crawlF_guard cfg web cfg.depth url initSt 1 hg]
    refine ⟨rfl, rfl, ?_⟩
    intro hM hD
    exfalso
    rcases hg with h | h
    · simp only [initSt, List.length_nil] at h
      omega
    · omega
  · rw [e, crawlF_badRes cfg web cfg.depth url initSt 1 hg hpv]
    refine ⟨by simp [initSt], by simp [initSt, setAdd], ?_⟩
    intro _ _
    simp [initSt, setAdd]

/-- Witness for `C8_resolution_not_fatal` at the `"bogus"` resolution. -/
theorem C8_resolution_not_fatal_w :
    parseViewport cfg8.resolution = none ∧ 1 ≤ cfg8.maxPages ∧ 1 ≤ cfg8.depth ∧
    (takeScreenshots cfg8 web8 "https://a.test/").renders = [] ∧
    (takeScreenshots cfg8 web8 "https://a.test/").visited = ["https://a.test/"] := by
  have h := C8_resolution_not_fatal cfg8 web8 "https://a.test/" rfl
  exact ⟨rfl, by decide, by decide, h.1, h.2.2 (by decide) (by decide)⟩

/-- C9. A URL is claimed (inserted into the visited set) before its
render is attempted: in every run, the visited set is exactly the list
of claimed tasks, no URL is claimed twice (so a claimed URL is never
re-attempted), and every URL whose render failed is in the visited set
— counting one unit toward the page cap — while absent from the
rendered outputs. -/
theorem C9_failed_counts (cfg : Config) (web : Web) (url : String) :
    (takeScreenshots cfg web url).visited =
      (takeScreenshots cfg web url).tasks.map Prod.fst ∧
    (takeScreenshots cfg web url).visited.Nodup ∧
    (∀ u ∈ (takeScreenshots cfg web url).failures,
      u ∈ (takeScreenshots cfg web url).visited ∧
      u ∉ (takeScreenshots cfg web url).renders) := by
  have h := crawlF_inv cfg web (cfg.depth + 1) url initSt 1 (Inv_init cfg)
    (by simp [initSt]) le_rfl
  refine ⟨h.vt, h.vnd, ?_⟩
  intro u hu
  exact ⟨h.fsub u hu, fun hr => h.rfdis u hr hu⟩

/-- Witness for `C9_failed_counts` at the failing child of scenario D. -/
theorem C9_failed_counts_w :
    "https://a.test/c1" ∈ (takeScreenshots cfgB webD "https://a.test/").failures ∧
    "https://a.test/c1" ∈ (takeScreenshots cfgB webD "https://a.test/").visited ∧
    "https://a.test/c1" ∉ (takeScreenshots cfgB webD "https://a.test/").renders := by
  have h := (C9_failed_counts cfgB webD "https://a.test/").2.2
    "https://a.test/c1" (by decide)
  exact ⟨by decide, h.1, h.2⟩

/-- C10. Deduplication is by exact string identity: URL variants of the
seed differing only in fragment, query, or trailing slash all pass the
visited-set check and are each claimed and rendered in the same run
(the exact duplicate of the seed is the only one skipped). -/
theorem C10_exact_strings :
    (takeScreenshots cfgB webE "https://a.test/").renders =
      ["https://a.test/", "https://a.test/#frag", "https://a.test/?q=1",
       "https://a.test"] ∧
    (takeScreenshots cfgB webE "https://a.test/").visited =
      ["https://a.test/", "https://a.test/#frag", "https://a.test/?q=1",
       "https://a.test"] := by
  decide

end ScreenScout
